import Mathlib

/-!
# Verification of the pipeline-scheduler stage-zero ingestor and completion intake

A shallow embedding of the tile ingestor
(`src/server/schedulers/projectPipelineScheduler.ts`) and the message-queue
completion path (`src/server/message-queue/mainQueue.ts`) of the
MouseLightProject/pipeline-scheduler repository, together with theorems about
the mass-deletion guard, the mux plan, path normalization, the drive-mapping
rewrite, the inventory-source classification and the acknowledge loop.
-/

set_option maxHeartbeats 1000000

set_option maxRecDepth 8000

/-- Modelled from the spec: the per-stage tile status enumeration
`TilePipelineStatus` lives in `basePipelineScheduler.ts`, which is not part of
the provided sources; the spec lists its members as
{Incomplete=1, Queued=2, Processing=3, Complete=4, Failed=5, Canceled=6}.
Only equality of statuses matters to the embedded code, so the numeric codes
are not modelled. -/
inductive TilePipelineStatus
  | Incomplete
  | Queued
  | Processing
  | Complete
  | Failed
  | Canceled
deriving DecidableEq

/-- `IPipelineTileAttributes`: a canonical tile as parsed from the inventory
(`relative_path` is the identity key, `DefaultPipelineIdKey`). Lattice
positions and steps are nullable numbers in the source; they are only ever
copied, so they are embedded as `Option Int`. -/
structure IPipelineTileAttributes where
  relative_path : String
  index : Option Int
  tile_name : String
  prev_stage_status : TilePipelineStatus
  this_stage_status : TilePipelineStatus
  lat_x : Option Int
  lat_y : Option Int
  lat_z : Option Int
  step_x : Option Int
  step_y : Option Int
  step_z : Option Int
deriving DecidableEq

/-- `IPipelineTile`: a persisted tile-status row, extending the canonical
attributes with the cumulative aggregates and timestamps maintained by the
muxer. Timestamps are embedded as integers (the muxer only copies the
injected clock value into them). -/
structure IPipelineTile extends IPipelineTileAttributes where
  duration : Int
  cpu_high : Int
  memory_high : Int
  created_at : Int
  updated_at : Int
deriving DecidableEq

/-- `IMuxTileLists`: the plan emitted by the muxer. `toDelete` holds
`relative_path` keys; `toReset` is left empty by stage zero. -/
structure IMuxTileLists where
  toInsert : List IPipelineTile
  toUpdate : List IPipelineTile
  toReset : List String
  toDelete : List String
deriving DecidableEq

/-- lodash `_.differenceBy(a, b, key)`: the elements of `a` whose key does not
occur among the keys of `b`, in the order of `a`, duplicates of `a`
preserved (lodash does not deduplicate the first array here). -/
def differenceByPath {α β : Type} (a : List α) (b : List β)
    (ka : α → String) (kb : β → String) : List α :=
  a.filter (fun x => !(b.any (fun y => kb y == ka x)))

/-- The loop inside lodash `_.intersectionBy(a, b, key)`: walk `a`, pushing an
element when its key occurs in `b` and no element with the same key has been
pushed already (`seen` collects the keys pushed so far). -/
def intersectionGo {α β : Type} (b : List β) (ka : α → String) (kb : β → String) :
    List α → List String → List α
  | [], _ => []
  | x :: xs, seen =>
    if seen.contains (ka x) then intersectionGo b ka kb xs seen
    else if b.any (fun y => kb y == ka x) then
      x :: intersectionGo b ka kb xs (ka x :: seen)
    else intersectionGo b ka kb xs seen

/-- lodash `_.intersectionBy(a, b, key)`: the elements of `a` whose key occurs
among the keys of `b`, in the order of `a`, deduplicated by key. -/
def intersectionByPath {α β : Type} (a : List α) (b : List β)
    (ka : α → String) (kb : β → String) : List α :=
  intersectionGo b ka kb a []

/-- The `existingTilePaths` map built by
`knownOutput.map(t => existingTilePaths.set(t.relative_path, t))`: a lookup in
which a later `set` for the same key overwrites an earlier one, so `get`
returns the last element of `knownOutput` carrying the key. -/
def tileForPath (knownOutput : List IPipelineTile) (p : String) : Option IPipelineTile :=
  knownOutput.reverse.find? (fun t => t.relative_path == p)

/-- The in-place merge performed on an existing tile inside the `toUpdate`
branch of `muxInputOutputTiles`: name, index, statuses, lattice position and
step are overwritten from the input tile and `updated_at` is set to the
current clock. -/
def mergedUpdateTile (existingTile : IPipelineTile)
    (inputTile : IPipelineTileAttributes) (now : Int) : IPipelineTile :=
  { existingTile with
      tile_name := inputTile.tile_name
      index := inputTile.index
      prev_stage_status := inputTile.prev_stage_status
      this_stage_status := inputTile.this_stage_status
      lat_x := inputTile.lat_x
      lat_y := inputTile.lat_y
      lat_z := inputTile.lat_z
      step_x := inputTile.step_x
      step_y := inputTile.step_y
      step_z := inputTile.step_z
      updated_at := now }

/-- The `Object.assign` performed on each inserted tile: the canonical
attributes plus zeroed aggregates and fresh timestamps. -/
def insertedTile (inputTile : IPipelineTileAttributes) (now : Int) : IPipelineTile :=
  { toIPipelineTileAttributes := inputTile
    duration := 0
    cpu_high := 0
    memory_high := 0
    created_at := now
    updated_at := now }

/-- `ProjectPipelineScheduler.muxInputOutputTiles`. Returns `none` when the
mass-deletion guard fires (the source returns `undefined` via a bare
`return;`), otherwise the sorted plan. The source draws a fresh `new Date()`
per processed tile; the clock is embedded as the single parameter `now`. -/
def muxInputOutputTiles (knownInput : List IPipelineTileAttributes)
    (knownOutput : List IPipelineTile) (now : Int) : Option IMuxTileLists :=
  if (knownOutput.length : Int) - (knownInput.length : Int) > 1000 then
    none
  else
    let toInsertRaw := differenceByPath knownInput knownOutput
      (fun t => t.relative_path) (fun t => t.relative_path)
    let toUpdateRaw := intersectionByPath knownInput knownOutput
      (fun t => t.relative_path) (fun t => t.relative_path)
    let toDelete := (differenceByPath knownOutput knownInput
      (fun t => t.relative_path) (fun t => t.relative_path)).map
        (fun t => t.relative_path)
    let toInsert := toInsertRaw.map (fun inputTile => insertedTile inputTile now)
    let toUpdate := toUpdateRaw.filterMap (fun inputTile =>
      match tileForPath knownOutput inputTile.relative_path with
      | none => none
      | some existingTile =>
        if existingTile.prev_stage_status ≠ inputTile.this_stage_status then
          some (mergedUpdateTile existingTile inputTile now)
        else none)
    some { toInsert := toInsert, toUpdate := toUpdate, toReset := [], toDelete := toDelete }

/-- C2: the muxer returns no plan exactly when the persisted tile vector
exceeds the parsed inventory by more than 1000 entries. -/
theorem mux_refuses_iff_guard (knownInput : List IPipelineTileAttributes)
    (knownOutput : List IPipelineTile) (now : Int) :
    muxInputOutputTiles knownInput knownOutput now = none ↔
      (knownOutput.length : Int) - (knownInput.length : Int) > 1000 := by
  unfold muxInputOutputTiles
  by_cases h : (knownOutput.length : Int) - (knownInput.length : Int) > 1000
  · simp [h]
  · simp [h]

theorem mem_of_mem_intersectionGo {α β : Type} (b : List β) (ka : α → String)
    (kb : β → String) (a : List α) (seen : List String) (x : α)
    (hx : x ∈ intersectionGo b ka kb a seen) : x ∈ a := by
  induction a generalizing seen with
  | nil => simp [intersectionGo] at hx
  | cons y ys ih =>
    unfold intersectionGo at hx
    by_cases h1 : seen.contains (ka y) = true
    · rw [if_pos h1] at hx
      exact List.mem_cons_of_mem _ (ih _ hx)
    · by_cases h2 : b.any (fun z => kb z == ka y) = true
      · rw [if_neg h1, if_pos h2] at hx
        rcases List.mem_cons.mp hx with h | h
        · subst h; exact List.mem_cons_self _ _
        · exact List.mem_cons_of_mem _ (ih _ h)
      · rw [if_neg h1, if_neg h2] at hx
        exact List.mem_cons_of_mem _ (ih _ hx)

theorem intersectionGo_key_matched {α β : Type} (b : List β) (ka : α → String)
    (kb : β → String) (a : List α) (seen : List String) (x : α)
    (hx : x ∈ intersectionGo b ka kb a seen) :
    b.any (fun z => kb z == ka x) = true := by
  induction a generalizing seen with
  | nil => simp [intersectionGo] at hx
  | cons y ys ih =>
    unfold intersectionGo at hx
    by_cases h1 : seen.contains (ka y) = true
    · rw [if_pos h1] at hx
      exact ih _ hx
    · by_cases h2 : b.any (fun z => kb z == ka y) = true
      · rw [if_neg h1, if_pos h2] at hx
        rcases List.mem_cons.mp hx with h | h
        · subst h; exact h2
        · exact ih _ h
      · rw [if_neg h1, if_neg h2] at hx
        exact ih _ hx

theorem intersectionGo_nodup_aux {α β : Type} (b : List β) (ka : α → String)
    (kb : β → String) (a : List α) (seen : List String) :
    ((intersectionGo b ka kb a seen).map ka).Nodup ∧
      ∀ x ∈ intersectionGo b ka kb a seen, ¬ ka x ∈ seen := by
  induction a generalizing seen with
  | nil => simp [intersectionGo]
  | cons y ys ih =>
    unfold intersectionGo
    by_cases h1 : seen.contains (ka y) = true
    · rw [if_pos h1]
      exact ih seen
    · by_cases h2 : b.any (fun z => kb z == ka y) = true
      · rw [if_neg h1, if_pos h2]
        obtain ⟨ihn, ihs⟩ := ih (ka y :: seen)
        refine ⟨?_, ?_⟩
        · simp only [List.map_cons, List.nodup_cons]
          refine ⟨?_, ihn⟩
          intro hmem
          rcases List.mem_map.mp hmem with ⟨x, hxmem, hxkey⟩
          exact (ihs x hxmem) (by simp [hxkey])
        · intro x hx
          rcases List.mem_cons.mp hx with h | h
          · subst h
            simpa using h1
          · intro hs
            exact (ihs x h) (List.mem_cons_of_mem _ hs)
      · rw [if_neg h1, if_neg h2]
        exact ih seen

theorem intersectionGo_eq_filter {α β : Type} (b : List β) (ka : α → String)
    (kb : β → String) (a : List α) (seen : List String)
    (hnd : (a.map ka).Nodup) (hdisj : ∀ x ∈ a, ¬ ka x ∈ seen) :
    intersectionGo b ka kb a seen =
      a.filter (fun x => b.any (fun z => kb z == ka x)) := by
  induction a generalizing seen with
  | nil => simp [intersectionGo]
  | cons y ys ih =>
    have h1 : ¬ seen.contains (ka y) = true := by
      simpa using hdisj y (List.mem_cons_self y ys)
    have hndt : (ys.map ka).Nodup := by
      simp only [List.map_cons, List.nodup_cons] at hnd
      exact hnd.2
    have hhead : ¬ ka y ∈ ys.map ka := by
      simp only [List.map_cons, List.nodup_cons] at hnd
      exact hnd.1
    unfold intersectionGo
    by_cases h2 : b.any (fun z => kb z == ka y) = true
    · rw [if_neg h1, if_pos h2]
      rw [List.filter_cons_of_pos (by simpa using h2)]
      congr 1
      apply ih (ka y :: seen) hndt
      intro x hx
      intro hmem
      rcases List.mem_cons.mp hmem with h | h
      · exact hhead (List.mem_map.mpr ⟨x, hx, h⟩)
      · exact hdisj x (List.mem_cons_of_mem _ hx) h
    · rw [if_neg h1, if_neg h2]
      rw [List.filter_cons_of_neg (by simpa using h2)]
      apply ih seen hndt
      intro x hx
      exact hdisj x (List.mem_cons_of_mem _ hx)

theorem find?_key_eq_some {α : Type} (k : α → String) (l : List α)
    (hnd : (l.map k).Nodup) (o : α) (ho : o ∈ l) (p : String) (hp : k o = p) :
    l.find? (fun t => k t == p) = some o := by
  induction l with
  | nil => cases ho
  | cons y ys ih =>
    simp only [List.map_cons, List.nodup_cons] at hnd
    rcases List.mem_cons.mp ho with h | hmem
    · subst h
      exact List.find?_cons_of_pos ys (by simp [hp])
    · have hkey : ¬ ((fun t => k t == p) y = true) := by
        intro h
        have hky : k y = p := beq_iff_eq.mp h
        exact hnd.1 (List.mem_map.mpr ⟨o, hmem, by rw [hp, hky]⟩)
      rw [List.find?_cons_of_neg ys hkey]
      exact ih hnd.2 hmem

theorem tileForPath_eq_some (O : List IPipelineTile)
    (hnd : (O.map (fun t => t.relative_path)).Nodup) (o : IPipelineTile)
    (ho : o ∈ O) (p : String) (hp : o.relative_path = p) :
    tileForPath O p = some o := by
  unfold tileForPath
  apply find?_key_eq_some (fun t => t.relative_path) O.reverse ?_ o ?_ p hp
  · simpa using hnd
  · exact List.mem_reverse.mpr ho

theorem tileForPath_path (O : List IPipelineTile) (p : String) (o : IPipelineTile)
    (h : tileForPath O p = some o) : o.relative_path = p := by
  unfold tileForPath at h
  have h2 := List.find?_some h
  simp only [beq_iff_eq] at h2
  exact h2

theorem tileForPath_mem (O : List IPipelineTile) (p : String) (o : IPipelineTile)
    (h : tileForPath O p = some o) : o ∈ O := by
  unfold tileForPath at h
  exact List.mem_reverse.mp (List.mem_of_find?_eq_some h)

theorem tileForPath_isSome_of_any (O : List IPipelineTile) (p : String)
    (h : O.any (fun y => y.relative_path == p) = true) :
    ∃ t, tileForPath O p = some t := by
  rcases List.any_eq_true.mp h with ⟨y, hy, hkey⟩
  unfold tileForPath
  have hsome : (List.find? (fun t => t.relative_path == p) O.reverse).isSome = true :=
    List.find?_isSome.mpr ⟨y, List.mem_reverse.mpr hy, hkey⟩
  exact Option.isSome_iff_exists.mp hsome

theorem nodup_keys_filterMap {α β : Type} (ka : α → String) (kb : β → String)
    (l : List α) (f : α → Option β) (hnd : (l.map ka).Nodup)
    (hf : ∀ x y, f x = some y → kb y = ka x) :
    ((l.filterMap f).map kb).Nodup := by
  induction l with
  | nil => simp
  | cons x xs ih =>
    simp only [List.map_cons, List.nodup_cons] at hnd
    rw [List.filterMap_cons]
    cases hx : f x with
    | none => exact ih hnd.2
    | some y =>
      simp only [List.map_cons, List.nodup_cons]
      refine ⟨?_, ih hnd.2⟩
      intro hmem
      rcases List.mem_map.mp hmem with ⟨z, hzmem, hzkey⟩
      rcases List.mem_filterMap.mp hzmem with ⟨w, hwmem, hwf⟩
      have h1 : kb z = ka w := hf w z hwf
      have h2 : kb y = ka x := hf x y hx
      exact hnd.1 (List.mem_map.mpr ⟨w, hwmem, by rw [← h1, hzkey, h2]⟩)

theorem mergedUpdateTile_relative_path (e : IPipelineTile)
    (i : IPipelineTileAttributes) (n : Int) :
    (mergedUpdateTile e i n).relative_path = e.relative_path := rfl

theorem insertedTile_relative_path (i : IPipelineTileAttributes) (n : Int) :
    (insertedTile i n).relative_path = i.relative_path := rfl

theorem mux_some_eq (knownInput : List IPipelineTileAttributes)
    (knownOutput : List IPipelineTile) (now : Int) (plan : IMuxTileLists)
    (h : muxInputOutputTiles knownInput knownOutput now = some plan) :
    plan.toInsert = (differenceByPath knownInput knownOutput
        (fun t => t.relative_path) (fun t => t.relative_path)).map
          (fun inputTile => insertedTile inputTile now) ∧
    plan.toUpdate = (intersectionByPath knownInput knownOutput
        (fun t => t.relative_path) (fun t => t.relative_path)).filterMap
          (fun inputTile =>
            match tileForPath knownOutput inputTile.relative_path with
            | none => none
            | some existingTile =>
              if existingTile.prev_stage_status ≠ inputTile.this_stage_status then
                some (mergedUpdateTile existingTile inputTile now)
              else none) ∧
    plan.toReset = [] ∧
    plan.toDelete = (differenceByPath knownOutput knownInput
        (fun t => t.relative_path) (fun t => t.relative_path)).map
          (fun t => t.relative_path) := by
  unfold muxInputOutputTiles at h
  by_cases hg : (knownOutput.length : Int) - (knownInput.length : Int) > 1000
  · rw [if_pos hg] at h
    cases h
  · rw [if_neg hg] at h
    simp only [Option.some.injEq] at h
    subst h
    exact ⟨rfl, rfl, rfl, rfl⟩

/-- C10: every candidate produced by the intersection step of the muxer has a
matching entry in the map built from the persisted tiles, so the
`existingTilePaths.get` lookup during update-merge always succeeds and the
missing-tile fallback branch (`existingTile === null`) is unreachable. -/
theorem mux_update_lookup_total (knownInput : List IPipelineTileAttributes)
    (knownOutput : List IPipelineTile) (x : IPipelineTileAttributes)
    (hx : x ∈ intersectionByPath knownInput knownOutput
      (fun t => t.relative_path) (fun t => t.relative_path)) :
    ∃ t, tileForPath knownOutput x.relative_path = some t := by
  apply tileForPath_isSome_of_any
  exact intersectionGo_key_matched _ _ _ _ _ _ hx

/-- C3: given duplicate-free key vectors, a persisted row `o` with matching
inventory tile `i` (same `relative_path`) appears in the muxer's `toUpdate`
bucket — merged so that `tile_name`, `index`, both statuses, lattice position
and step come from `i` and `updated_at = now` — exactly when
`o.prev_stage_status ≠ i.this_stage_status`; when the predicate is false no
row carrying that `relative_path` is written to any bucket of the plan. -/
theorem mux_update_membership (knownInput : List IPipelineTileAttributes)
    (knownOutput : List IPipelineTile) (now : Int) (plan : IMuxTileLists)
    (hplan : muxInputOutputTiles knownInput knownOutput now = some plan)
    (hI : (knownInput.map (fun t => t.relative_path)).Nodup)
    (hO : (knownOutput.map (fun t => t.relative_path)).Nodup)
    (i : IPipelineTileAttributes) (o : IPipelineTile)
    (hi : i ∈ knownInput) (ho : o ∈ knownOutput)
    (hpath : o.relative_path = i.relative_path) :
    (mergedUpdateTile o i now ∈ plan.toUpdate ↔
        o.prev_stage_status ≠ i.this_stage_status) ∧
    (o.prev_stage_status = i.this_stage_status →
        (∀ u ∈ plan.toUpdate, u.relative_path ≠ i.relative_path) ∧
        i.relative_path ∉ plan.toDelete ∧
        (∀ t ∈ plan.toInsert, t.relative_path ≠ i.relative_path)) := by
  obtain ⟨hIns, hUpd, _, hDel⟩ := mux_some_eq knownInput knownOutput now plan hplan
  have hlookup : tileForPath knownOutput i.relative_path = some o :=
    tileForPath_eq_some knownOutput hO o ho i.relative_path hpath
  have hcand : intersectionByPath knownInput knownOutput
      (fun t => t.relative_path) (fun t => t.relative_path) =
      knownInput.filter
        (fun x => knownOutput.any (fun z => z.relative_path == x.relative_path)) := by
    unfold intersectionByPath
    apply intersectionGo_eq_filter _ _ _ _ _ hI
    intro x _
    simp
  have hanyi : knownOutput.any (fun z => z.relative_path == i.relative_path) = true :=
    List.any_eq_true.mpr ⟨o, ho, by simp [hpath]⟩
  -- No toUpdate row carries the path when the predicate is false.
  have hupd_none : o.prev_stage_status = i.this_stage_status →
      ∀ u ∈ plan.toUpdate, u.relative_path ≠ i.relative_path := by
    intro hpred u hu hupath
    rw [hUpd] at hu
    rcases List.mem_filterMap.mp hu with ⟨j, hjmem, hjF⟩
    have hjIn : j ∈ knownInput := mem_of_mem_intersectionGo _ _ _ _ _ _ hjmem
    rcases he : tileForPath knownOutput j.relative_path with _ | e
    · rw [he] at hjF
      cases hjF
    · rw [he] at hjF
      change (if e.prev_stage_status ≠ j.this_stage_status then
          some (mergedUpdateTile e j now) else none) = some u at hjF
      by_cases hcond : e.prev_stage_status ≠ j.this_stage_status
      · rw [if_pos hcond] at hjF
        have hue : u = mergedUpdateTile e j now := by
          cases hjF
          rfl
        have hje : e.relative_path = j.relative_path := tileForPath_path _ _ _ he
        have hjpath : j.relative_path = i.relative_path := by
          rw [← hje, ← mergedUpdateTile_relative_path e j now, ← hue]
          exact hupath
        have hji : j = i :=
          List.inj_on_of_nodup_map hI hjIn hi hjpath
        subst hji
        rw [hlookup] at he
        cases he
        exact hcond (by rw [hpred])
      · rw [if_neg hcond] at hjF
        cases hjF
  refine ⟨⟨?_, ?_⟩, ?_⟩
  · -- membership in toUpdate forces the predicate
    intro hmem
    by_contra hpred
    exact hupd_none hpred (mergedUpdateTile o i now) hmem
      (by rw [mergedUpdateTile_relative_path]; exact hpath)
  · -- the predicate puts the merged row in toUpdate
    intro hpred
    rw [hUpd]
    apply List.mem_filterMap.mpr
    refine ⟨i, ?_, ?_⟩
    · rw [hcand]
      exact List.mem_filter.mpr ⟨hi, hanyi⟩
    · rw [hlookup]
      show (if o.prev_stage_status ≠ i.this_stage_status then
          some (mergedUpdateTile o i now) else none) = some (mergedUpdateTile o i now)
      rw [if_pos hpred]
  · intro hpred
    refine ⟨hupd_none hpred, ?_, ?_⟩
    · -- the path is not deleted
      rw [hDel]
      intro hmem
      rcases List.mem_map.mp hmem with ⟨t, htmem, htpath⟩
      unfold differenceByPath at htmem
      rcases List.mem_filter.mp htmem with ⟨_, htkey⟩
      have : knownInput.any (fun y => y.relative_path == t.relative_path) = true :=
        List.any_eq_true.mpr ⟨i, hi, by simp [htpath]⟩
      simp [this] at htkey
    · -- the path is not inserted
      intro t htmem htpath
      rw [hIns] at htmem
      rcases List.mem_map.mp htmem with ⟨j, hjmem, hjt⟩
      unfold differenceByPath at hjmem
      rcases List.mem_filter.mp hjmem with ⟨_, hjkey⟩
      have hjpath : j.relative_path = i.relative_path := by
        rw [← htpath, ← hjt, insertedTile_relative_path]
      have : knownOutput.any (fun y => y.relative_path == j.relative_path) = true :=
        List.any_eq_true.mpr ⟨o, ho, by simp [hpath, hjpath]⟩
      simp [this] at hjkey

/-- A concrete canonical tile used for evaluating the muxer on explicit
inputs. -/
def sampleTileAttrA : IPipelineTileAttributes :=
  { relative_path := "a/b.tif"
    index := some 1
    tile_name := "b.tif"
    prev_stage_status := TilePipelineStatus.Incomplete
    this_stage_status := TilePipelineStatus.Incomplete
    lat_x := none
    lat_y := none
    lat_z := none
    step_x := none
    step_y := none
    step_z := none }

/-- The `relative_path` keys of a plan's insert bucket. -/
def insertPaths (plan : IMuxTileLists) : List String :=
  plan.toInsert.map (fun t => t.relative_path)

/-- C8 counterexample: an inventory that repeats `relative_path` `"a/b.tif"`
twice against an empty persisted vector produces an insert bucket carrying the
path twice — the muxer does not deduplicate `toInsert`
(lodash `differenceBy` keeps duplicates of its first argument). -/
theorem mux_insert_duplicates_counterexample :
    (muxInputOutputTiles [sampleTileAttrA, sampleTileAttrA] [] 0).map insertPaths =
      some ["a/b.tif", "a/b.tif"] ∧
    ¬ (["a/b.tif", "a/b.tif"] : List String).Nodup := by
  constructor
  · rfl
  · decide

/-- C8 amended: the muxer deduplicates the `toUpdate` bucket by
`relative_path` (lodash `intersectionBy` is unique-by-key), and the `toDelete`
bucket holds distinct paths whenever the persisted vector's paths are
distinct; the `toInsert` bucket, however, preserves inventory duplicates, so
only the update and delete buckets are guaranteed at most one entry per
`relative_path`. -/
theorem mux_dedup_update_delete (knownInput : List IPipelineTileAttributes)
    (knownOutput : List IPipelineTile) (now : Int) (plan : IMuxTileLists)
    (hplan : muxInputOutputTiles knownInput knownOutput now = some plan) :
    (plan.toUpdate.map (fun t => t.relative_path)).Nodup ∧
    ((knownOutput.map (fun t => t.relative_path)).Nodup → plan.toDelete.Nodup) := by
  obtain ⟨hIns, hUpd, hRes, hDel⟩ := mux_some_eq knownInput knownOutput now plan hplan
  constructor
  · rw [hUpd]
    refine @nodup_keys_filterMap IPipelineTileAttributes IPipelineTile
      (fun t => t.relative_path) (fun t => t.relative_path) _ _ ?_ ?_
    · exact (intersectionGo_nodup_aux knownOutput _ _ knownInput []).1
    · intro x y hxy
      rcases he : tileForPath knownOutput x.relative_path with _ | e
      · rw [he] at hxy
        cases hxy
      · rw [he] at hxy
        change (if e.prev_stage_status ≠ x.this_stage_status then
            some (mergedUpdateTile e x now) else none) = some y at hxy
        by_cases hcond : e.prev_stage_status ≠ x.this_stage_status
        · rw [if_pos hcond] at hxy
          cases hxy
          show (mergedUpdateTile e x now).relative_path = x.relative_path
          rw [mergedUpdateTile_relative_path]
          exact tileForPath_path _ _ _ he
        · rw [if_neg hcond] at hxy
          cases hxy
  · intro hO
    rw [hDel]
    have hsub : List.Sublist (differenceByPath knownOutput knownInput
        (fun t => t.relative_path) (fun t => t.relative_path)) knownOutput :=
      List.filter_sublist knownOutput
    exact hO.sublist (hsub.map (fun t => t.relative_path))

/-- The plan the muxer produces for the one-tile inventory
`[sampleTileAttrA]` against an empty persisted vector. -/
def samplePlanA : IMuxTileLists :=
  { toInsert := [insertedTile sampleTileAttrA 0]
    toUpdate := []
    toReset := []
    toDelete := [] }

theorem mux_dedup_update_delete_witness :
    (samplePlanA.toUpdate.map (fun t => t.relative_path)).Nodup ∧
    samplePlanA.toDelete.Nodup :=
  ⟨(mux_dedup_update_delete [sampleTileAttrA] [] 0 samplePlanA (by decide)).1,
   (mux_dedup_update_delete [sampleTileAttrA] [] 0 samplePlanA (by decide)).2 (by decide)⟩

/-- Modelled from the spec: `ProjectInputSourceState` is imported from
`project.ts`, which is not among the provided sources; the spec lists its
members as {Unknown, Pipeline, Dashboard, Missing, BadLocation}. -/
inductive ProjectInputSourceState
  | Unknown
  | Pipeline
  | Dashboard
  | Missing
  | BadLocation
deriving DecidableEq

/-- `IPosition`: a nullable x/y/z triple from the inventory JSON. The numeric
values are only copied into tile rows, so they are embedded as `Option Int`. -/
structure IPosition where
  x : Option Int
  y : Option Int
  z : Option Int
deriving DecidableEq

/-- `IJsonTile`: one record of the pipeline-format `tiles` array. `position`
and `step` may be absent (`tile.position || {x:null,y:null,z:null}`). -/
structure IJsonTile where
  id : Option Int
  relativePath : String
  position : Option IPosition
  step : Option IPosition
  isComplete : Bool
deriving DecidableEq

/-- `IDashboardTileContents`: the `contents` object of a dashboard-format
tile. -/
structure IDashboardTileContents where
  latticePosition : Option IPosition
  latticeStep : Option IPosition
deriving DecidableEq

/-- `IDashboardJsonTile`: one record of a dashboard-format `tileMap` group. -/
structure IDashboardJsonTile where
  id : Option Int
  relativePath : String
  contents : IDashboardTileContents
  isComplete : Bool
deriving DecidableEq

/-- The six sample-extent bounds (`extents` / `monitor.extents`). -/
structure IExtents where
  minimumX : Int
  maximumX : Int
  minimumY : Int
  maximumY : Int
  minimumZ : Int
  maximumZ : Int
deriving DecidableEq

/-- A parsed inventory document. `parsePipelineInput` dispatches on whether
the JSON has a `pipelineFormat` field: documents carrying it are the pipeline
format (optional `extents`, a `tiles` array), all others are the legacy
dashboard format (`monitor.extents`, a `tileMap` object whose values are
arrays — embedded as an ordered association list, matching JavaScript's
insertion-ordered string keys). -/
inductive InventoryContent
  | pipelineFmt (extents : Option IExtents) (tiles : List IJsonTile)
  | dashboardFmt (extents : Option IExtents)
      (tileMap : List (String × List IDashboardJsonTile))
deriving DecidableEq

/-- `relativePath.replace(new RegExp("\\" + "\\", "g"), "/")`: every backslash
character becomes a forward slash. -/
def normalizePosixPath (s : String) : String :=
  String.mk (s.data.map (fun c => if c == '\\' then '/' else c))

/-- node `path.basename` for POSIX paths: strip trailing slashes, then take
the last slash-separated component. -/
def posixBasename (s : String) : String :=
  String.mk (((s.data.reverse.dropWhile (fun c => c == '/')).takeWhile
    (fun c => !(c == '/'))).reverse)

/-- The tile row pushed by `parsePipelineDefaultInput` for one `tiles` entry.
`tileName || ""` in the source is the identity on strings (an empty basename
stays empty), and `isNullOrUndefined(tile.id) ? null : tile.id` is the
identity on the embedded `Option`. -/
def parsedPipelineTile (tile : IJsonTile) : IPipelineTileAttributes :=
  let normalizedPath := normalizePosixPath tile.relativePath
  let tileName := posixBasename normalizedPath
  let position := tile.position.getD { x := none, y := none, z := none }
  let step := tile.step.getD { x := none, y := none, z := none }
  { relative_path := normalizedPath
    index := tile.id
    tile_name := tileName
    prev_stage_status := if tile.isComplete then TilePipelineStatus.Complete
      else TilePipelineStatus.Incomplete
    this_stage_status := if tile.isComplete then TilePipelineStatus.Complete
      else TilePipelineStatus.Incomplete
    lat_x := position.x
    lat_y := position.y
    lat_z := position.z
    step_x := step.x
    step_y := step.y
    step_z := step.z }

/-- The tile row pushed by `parseDashboardInput` for one `tileMap` entry. -/
def parsedDashboardTile (tile : IDashboardJsonTile) : IPipelineTileAttributes :=
  let normalizedPath := normalizePosixPath tile.relativePath
  let tileName := posixBasename normalizedPath
  let position := tile.contents.latticePosition.getD { x := none, y := none, z := none }
  let step := tile.contents.latticeStep.getD { x := none, y := none, z := none }
  { relative_path := normalizedPath
    index := tile.id
    tile_name := tileName
    prev_stage_status := if tile.isComplete then TilePipelineStatus.Complete
      else TilePipelineStatus.Incomplete
    this_stage_status := if tile.isComplete then TilePipelineStatus.Complete
      else TilePipelineStatus.Incomplete
    lat_x := position.x
    lat_y := position.y
    lat_z := position.z
    step_x := step.x
    step_y := step.y
    step_z := step.z }

/-- `parsePipelineDefaultInput`: the optional extents are flushed into the
project update (returned here as the first component) and the `tiles` array
is mapped in document order. -/
def parsePipelineDefaultInput (extents : Option IExtents) (tiles : List IJsonTile) :
    Option IExtents × List IPipelineTileAttributes :=
  (extents, tiles.map parsedPipelineTile)

/-- `parseDashboardInput`: `monitor.extents` go to the project update; the
`tileMap` groups are concatenated in key order, each group in document
order. -/
def parseDashboardInput (extents : Option IExtents)
    (tileMap : List (String × List IDashboardJsonTile)) :
    Option IExtents × List IPipelineTileAttributes :=
  (extents, tileMap.flatMap (fun group => group.2.map parsedDashboardTile))

/-- `parsePipelineInput`: dispatch on the presence of `pipelineFormat`. -/
def parsePipelineInput (doc : InventoryContent) :
    Option IExtents × List IPipelineTileAttributes :=
  match doc with
  | InventoryContent.pipelineFmt extents tiles => parsePipelineDefaultInput extents tiles
  | InventoryContent.dashboardFmt extents tileMap => parseDashboardInput extents tileMap

/-- One `ServiceOptions.driveMapping` pair; the source accesses the fields as
`d.remote` and `d.local` (`local` is a Lean keyword, hence `local_path`). -/
structure DriveMap where
  remote : String
  local_path : String
deriving DecidableEq

/-- JavaScript `root.startsWith(d.remote)`: a literal prefix test on the
character sequence. -/
def jsStartsWith (s p : String) : Bool :=
  p.data.isPrefixOf s.data

/-- The drive-mapping loop at the top of `performJsonUpdate`:
`driveMapping.map(d => { if (root.startsWith(d.remote)) root = d.local +
root.slice(d.remote.length); })`. The loop visits every pair and tests each
against the current — possibly already rewritten — value of `root`, which the
fold threads through (`root.slice(n)` drops the first `n` units). -/
def applyDriveMapping (mapping : List DriveMap) (root : String) : String :=
  mapping.foldl
    (fun r d => if jsStartsWith r d.remote then d.local_path ++ r.drop d.remote.length else r)
    root

/-- The path-mapping rule as the spec words it, for comparison with
`applyDriveMapping`: only the first pair whose `remote` is a literal prefix of
the input is applied; no later pair is tried after the first match. -/
def firstMatchDriveMapping (mapping : List DriveMap) (root : String) : String :=
  match mapping.find? (fun d => jsStartsWith root d.remote) with
  | some d => d.local_path ++ root.drop d.remote.length
  | none => root

/-- The project-root files touched by one ingestor pass, restricted to the
paths `performJsonUpdate` tests and writes: whether the (mapped) root exists,
the parsed contents of `pipeline-input.json` and `dashboard.json` when those
files exist, and the contents of the `pipeline-storage.json` snapshot and its
`.last` backup. -/
structure ProjectRootFS where
  rootExists : Bool
  pipelineInputFile : Option InventoryContent
  dashboardFile : Option InventoryContent
  snapshot : Option (List IPipelineTileAttributes)
  snapshotBackup : Option (List IPipelineTileAttributes)
deriving DecidableEq

/-- The snapshot write at the end of `performJsonUpdate`: if
`pipeline-storage.json` exists it is first copied over the `.last` backup
(clobbering it) and unlinked, then the fresh tile vector is written. -/
def writeSnapshot (fs : ProjectRootFS) (tiles : List IPipelineTileAttributes) :
    ProjectRootFS :=
  let fs1 := if fs.snapshot.isSome then { fs with snapshotBackup := fs.snapshot } else fs
  { fs1 with snapshot := some tiles }

/-- What one `performJsonUpdate` call produces: the input-source state pushed
to the control plane, the returned tile vector, the file system after the
snapshot write, and the extents flushed into the project row (if any). -/
structure JsonUpdateResult where
  state : ProjectInputSourceState
  tiles : List IPipelineTileAttributes
  fs : ProjectRootFS
  projectExtents : Option IExtents
deriving DecidableEq

/-- `ProjectPipelineScheduler.performJsonUpdate` on the file-system model:
classify the input source (missing root → `BadLocation`;
`pipeline-input.json` → `Pipeline`; else `dashboard.json` → `Dashboard`; else
`Missing`), parse the selected document, then write the snapshot. The
`BadLocation` and `Missing` branches return an empty vector without touching
the snapshot. -/
def performJsonUpdate (fs : ProjectRootFS) : JsonUpdateResult :=
  if !fs.rootExists then
    { state := ProjectInputSourceState.BadLocation, tiles := [], fs := fs,
      projectExtents := none }
  else
    match fs.pipelineInputFile, fs.dashboardFile with
    | some doc, _ =>
      let parsed := parsePipelineInput doc
      { state := ProjectInputSourceState.Pipeline, tiles := parsed.2,
        fs := writeSnapshot fs parsed.2, projectExtents := parsed.1 }
    | none, some doc =>
      let parsed := parsePipelineInput doc
      { state := ProjectInputSourceState.Dashboard, tiles := parsed.2,
        fs := writeSnapshot fs parsed.2, projectExtents := parsed.1 }
    | none, none =>
      { state := ProjectInputSourceState.Missing, tiles := [], fs := fs,
        projectExtents := none }

/-- Modelled from the spec: `refreshWithKnownInput` lives in
`basePipelineScheduler.ts`, which is not among the provided sources. Per spec
§4.5 it runs the muxer against the current persisted tile vector and, when a
plan is returned, applies inserts, then updates, then deletes; when the
mass-deletion guard fired (no plan), the persisted table is left untouched. -/
def refreshWithKnownInput (db : List IPipelineTile)
    (knownInput : List IPipelineTileAttributes) (now : Int) : List IPipelineTile :=
  match muxInputOutputTiles knownInput db now with
  | none => db
  | some plan =>
    let afterInsert := db ++ plan.toInsert
    let afterUpdate := afterInsert.map (fun t =>
      match plan.toUpdate.find? (fun u => u.relative_path == t.relative_path) with
      | some u => u
      | none => t)
    afterUpdate.filter (fun t => !(plan.toDelete.contains t.relative_path))

/-- `ProjectPipelineScheduler.refreshTileStatus`, one ingestor tick:
`performJsonUpdate` (which classifies the source, parses and writes the
snapshot) followed by `refreshWithKnownInput` on its returned tile vector.
Returns the file system, the persisted table and the published state after
the tick. -/
def refreshTileStatus (fs : ProjectRootFS) (db : List IPipelineTile) (now : Int) :
    ProjectRootFS × List IPipelineTile × ProjectInputSourceState :=
  let r := performJsonUpdate fs
  (r.fs, refreshWithKnownInput db r.tiles now, r.state)

/-- A two-pair drive mapping under which the loop's rewritten output matches a
later pair. -/
def sampleMapping : List DriveMap :=
  [{ remote := "a", local_path := "b" }, { remote := "b", local_path := "c" }]

/-- C6 counterexample: with the ordered mapping `a → b`, `b → c` the source's
loop rewrites `"a/x"` first to `"b/x"` and then — because the second pair is
tested against the already rewritten value — to `"c/x"`, whereas applying only
the first matching pair (the claim) yields `"b/x"`. -/
theorem driveMapping_chains_counterexample :
    applyDriveMapping sampleMapping "a/x" = "c/x" ∧
    firstMatchDriveMapping sampleMapping "a/x" = "b/x" ∧
    applyDriveMapping sampleMapping "a/x" ≠ firstMatchDriveMapping sampleMapping "a/x" := by
  refine ⟨by decide, by decide, by decide⟩

/-- C6 amended: the drive-mapping loop applies every pair in configuration
order to the current value of the path — a pair whose `remote` is a literal
prefix of the current (possibly already rewritten) value rewrites it to
`local + remainder` — and a path matched by no pair at any stage passes
through unchanged. -/
theorem driveMapping_fold_behavior :
    (∀ (d : DriveMap) (rest : List DriveMap) (r : String),
        applyDriveMapping (d :: rest) r =
          applyDriveMapping rest
            (if jsStartsWith r d.remote then d.local_path ++ r.drop d.remote.length
             else r)) ∧
    (∀ (mapping : List DriveMap) (r : String),
        (∀ d ∈ mapping, jsStartsWith r d.remote = false) →
        applyDriveMapping mapping r = r) := by
  constructor
  · intro d rest r
    rfl
  · intro mapping
    induction mapping with
    | nil => intro r _; rfl
    | cons d rest ih =>
      intro r hno
      have hd : jsStartsWith r d.remote = false := hno d (List.mem_cons_self d rest)
      have hstep : applyDriveMapping (d :: rest) r = applyDriveMapping rest r := by
        unfold applyDriveMapping
        simp [hd]
      rw [hstep]
      exact ih r (fun e he => hno e (List.mem_cons_of_mem d he))

theorem driveMapping_fold_behavior_witness :
    applyDriveMapping sampleMapping "z" = "z" :=
  driveMapping_fold_behavior.2 sampleMapping "z" (by decide)

/-- C7: the inventory reader classifies the input source and yields the
inventory accordingly: a missing root gives `BadLocation` and an empty
vector; otherwise `pipeline-input.json`, when present, is parsed under state
`Pipeline`; otherwise `dashboard.json`, when present, is parsed under state
`Dashboard`; otherwise the state is `Missing` with an empty vector. -/
theorem performJsonUpdate_classification (fs : ProjectRootFS) :
    (fs.rootExists = false →
      (performJsonUpdate fs).state = ProjectInputSourceState.BadLocation ∧
      (performJsonUpdate fs).tiles = []) ∧
    (∀ doc, fs.rootExists = true → fs.pipelineInputFile = some doc →
      (performJsonUpdate fs).state = ProjectInputSourceState.Pipeline ∧
      (performJsonUpdate fs).tiles = (parsePipelineInput doc).2) ∧
    (∀ doc, fs.rootExists = true → fs.pipelineInputFile = none →
      fs.dashboardFile = some doc →
      (performJsonUpdate fs).state = ProjectInputSourceState.Dashboard ∧
      (performJsonUpdate fs).tiles = (parsePipelineInput doc).2) ∧
    (fs.rootExists = true → fs.pipelineInputFile = none → fs.dashboardFile = none →
      (performJsonUpdate fs).state = ProjectInputSourceState.Missing ∧
      (performJsonUpdate fs).tiles = []) := by
  refine ⟨?_, ?_, ?_, ?_⟩
  · intro hroot
    unfold performJsonUpdate
    rw [hroot]
    exact ⟨rfl, rfl⟩
  · intro doc hroot hpi
    unfold performJsonUpdate
    rw [hroot, hpi]
    exact ⟨rfl, rfl⟩
  · intro doc hroot hpi hdash
    unfold performJsonUpdate
    rw [hroot, hpi, hdash]
    exact ⟨rfl, rfl⟩
  · intro hroot hpi hdash
    unfold performJsonUpdate
    rw [hroot, hpi, hdash]
    exact ⟨rfl, rfl⟩

/-- A file-system state with a missing project root. -/
def missingRootFS : ProjectRootFS :=
  { rootExists := false
    pipelineInputFile := none
    dashboardFile := none
    snapshot := none
    snapshotBackup := none }

theorem performJsonUpdate_classification_witness :
    (performJsonUpdate missingRootFS).state = ProjectInputSourceState.BadLocation ∧
    (performJsonUpdate missingRootFS).tiles = [] :=
  (performJsonUpdate_classification missingRootFS).1 rfl

theorem normalizePosixPath_no_backslash (s : String) :
    ∀ c ∈ (normalizePosixPath s).data, c ≠ '\\' := by
  intro c hc
  have hc2 : c ∈ s.data.map (fun c0 => if c0 == '\\' then '/' else c0) := hc
  rcases List.mem_map.mp hc2 with ⟨c0, _, hc0⟩
  subst hc0
  by_cases h : (c0 == '\\') = true
  · rw [if_pos h]
    decide
  · rw [if_neg h]
    intro heq
    exact h (by rw [heq]; rfl)

/-- The `relativePath` attributes of every tile record of an inventory
document, in document order. -/
def inventoryRelativePaths : InventoryContent → List String
  | InventoryContent.pipelineFmt _ tiles => tiles.map (fun t => t.relativePath)
  | InventoryContent.dashboardFmt _ tileMap =>
      tileMap.flatMap (fun g => g.2.map (fun t => t.relativePath))

/-- C9: every tile row parsed from either inventory format stores as
`relative_path` the input `relativePath` with every backslash replaced by a
forward slash, and consequently its `relative_path` contains no backslash
character. -/
theorem parse_normalizes_paths (doc : InventoryContent) (t : IPipelineTileAttributes)
    (ht : t ∈ (parsePipelineInput doc).2) :
    (∃ p ∈ inventoryRelativePaths doc, t.relative_path = normalizePosixPath p) ∧
    ∀ c ∈ t.relative_path.data, c ≠ '\\' := by
  have hpath : ∃ p ∈ inventoryRelativePaths doc,
      t.relative_path = normalizePosixPath p := by
    cases doc with
    | pipelineFmt extents tiles =>
      have ht2 : t ∈ tiles.map parsedPipelineTile := ht
      rcases List.mem_map.mp ht2 with ⟨j, hj, hjt⟩
      exact ⟨j.relativePath, List.mem_map.mpr ⟨j, hj, rfl⟩, by rw [← hjt]; rfl⟩
    | dashboardFmt extents tileMap =>
      have ht2 : t ∈ tileMap.flatMap (fun group => group.2.map parsedDashboardTile) := ht
      rcases List.mem_flatMap.mp ht2 with ⟨g, hg, hmem⟩
      rcases List.mem_map.mp hmem with ⟨j, hj, hjt⟩
      refine ⟨j.relativePath, ?_, by rw [← hjt]; rfl⟩
      exact List.mem_flatMap.mpr ⟨g, hg, List.mem_map.mpr ⟨j, hj, rfl⟩⟩
  refine ⟨hpath, ?_⟩
  rcases hpath with ⟨p, _, hp⟩
  rw [hp]
  exact normalizePosixPath_no_backslash p

/-- A pipeline-format tile whose `relativePath` contains a backslash. -/
def sampleJsonTile : IJsonTile :=
  { id := some 1
    relativePath := "a\\b.tif"
    position := none
    step := none
    isComplete := false }

/-- A one-tile pipeline-format inventory document. -/
def sampleInventoryDoc : InventoryContent :=
  InventoryContent.pipelineFmt none [sampleJsonTile]

theorem parse_normalizes_paths_witness :
    (∃ p ∈ inventoryRelativePaths sampleInventoryDoc,
        (parsedPipelineTile sampleJsonTile).relative_path = normalizePosixPath p) ∧
    ∀ c ∈ (parsedPipelineTile sampleJsonTile).relative_path.data, c ≠ '\\' :=
  parse_normalizes_paths sampleInventoryDoc (parsedPipelineTile sampleJsonTile)
    (by decide)

/-- A persisted tile row used to populate a large tile-status table. -/
def dummyTile : IPipelineTile :=
  { toIPipelineTileAttributes := sampleTileAttrA
    duration := 0
    cpu_high := 0
    memory_high := 0
    created_at := 0
    updated_at := 0 }

/-- A file-system state whose root holds an empty pipeline-format inventory. -/
def guardTripFS : ProjectRootFS :=
  { rootExists := true
    pipelineInputFile := some (InventoryContent.pipelineFmt none [])
    dashboardFile := none
    snapshot := none
    snapshotBackup := none }

/-- A persisted table of 1001 rows, enough to trip the mass-deletion guard
against an empty inventory. -/
def guardTripDb : List IPipelineTile := List.replicate 1001 dummyTile

theorem guardTripDb_length : guardTripDb.length = 1001 := by
  unfold guardTripDb
  rw [List.length_replicate]

/-- C1 counterexample: a tick whose mass-deletion guard fires (1001 persisted
rows against an empty parsed inventory) still rewrites the
`pipeline-storage.json` snapshot, because `performJsonUpdate` writes it before
`refreshWithKnownInput` ever runs the muxer; only the tile table is left
unchanged. -/
theorem guard_tick_touches_snapshot_counterexample :
    muxInputOutputTiles (performJsonUpdate guardTripFS).tiles guardTripDb 0 = none ∧
    (refreshTileStatus guardTripFS guardTripDb 0).2.1 = guardTripDb ∧
    (refreshTileStatus guardTripFS guardTripDb 0).1.snapshot = some [] ∧
    guardTripFS.snapshot ≠ some [] := by
  have htiles : (performJsonUpdate guardTripFS).tiles = [] := rfl
  have hcond : (guardTripDb.length : Int) -
      (((performJsonUpdate guardTripFS).tiles).length : Int) > 1000 := by
    rw [guardTripDb_length, htiles]
    decide
  have hmux : muxInputOutputTiles (performJsonUpdate guardTripFS).tiles guardTripDb 0 = none := by
    unfold muxInputOutputTiles
    rw [if_pos hcond]
  refine ⟨hmux, ?_, rfl, by decide⟩
  show refreshWithKnownInput guardTripDb (performJsonUpdate guardTripFS).tiles 0 = guardTripDb
  unfold refreshWithKnownInput
  rw [hmux]

/-- C1 amended: when the mass-deletion guard fires during a tick, the
persisted tile table is indeed left unchanged, but the tick is not free of
disk writes — `performJsonUpdate` has already rewritten the
`pipeline-storage.json` snapshot with the freshly parsed vector before the
muxer runs. -/
theorem guard_tick_db_unchanged_snapshot_written (fs : ProjectRootFS)
    (db : List IPipelineTile) (now : Int) (doc : InventoryContent)
    (hroot : fs.rootExists = true) (hpi : fs.pipelineInputFile = some doc)
    (hguard : (db.length : Int) - (((parsePipelineInput doc).2).length : Int) > 1000) :
    (refreshTileStatus fs db now).2.1 = db ∧
    (refreshTileStatus fs db now).1.snapshot = some (parsePipelineInput doc).2 := by
  have hres : performJsonUpdate fs =
      { state := ProjectInputSourceState.Pipeline
        tiles := (parsePipelineInput doc).2
        fs := writeSnapshot fs (parsePipelineInput doc).2
        projectExtents := (parsePipelineInput doc).1 } := by
    unfold performJsonUpdate
    rw [hroot, hpi]
    rfl
  constructor
  · show refreshWithKnownInput db (performJsonUpdate fs).tiles now = db
    rw [hres]
    show refreshWithKnownInput db (parsePipelineInput doc).2 now = db
    unfold refreshWithKnownInput
    have hmux : muxInputOutputTiles (parsePipelineInput doc).2 db now = none := by
      unfold muxInputOutputTiles
      rw [if_pos hguard]
    rw [hmux]
  · show (performJsonUpdate fs).fs.snapshot = some (parsePipelineInput doc).2
    rw [hres]
    rfl

theorem guard_tick_db_unchanged_snapshot_written_witness :
    (refreshTileStatus guardTripFS guardTripDb 0).2.1 = guardTripDb ∧
    (refreshTileStatus guardTripFS guardTripDb 0).1.snapshot =
      some (parsePipelineInput (InventoryContent.pipelineFmt none [])).2 :=
  guard_tick_db_unchanged_snapshot_written guardTripFS guardTripDb 0
    (InventoryContent.pipelineFmt none []) rfl rfl
    (by rw [guardTripDb_length]; decide)

/-- One observable step of the completion intake path of `mainQueue.ts`: a
`writeTaskExecution` call to the metrics sink, a dispatch to
`SchedulerHub.onTaskExecutionComplete` together with the boolean it returned,
or the `channel.ack` of the delivery. -/
inductive QueueEvent
  | metricsWrite
  | hubDispatch (handled : Bool)
  | ack
deriving DecidableEq

/-- The event trace of one consumed message through `acknowledgeMessage` and
the consume callback: each attempt awaits the metrics write and then the hub
dispatch; a `true` from the hub resolves the promise, upon which the consume
callback acknowledges the delivery; a `false` schedules another
`acknowledgeMessage` attempt 10 seconds later. `hubResults` lists the
successive answers of the scheduler hub; when the list is exhausted without a
`true` the message is still waiting on its next retry and nothing further is
observed. -/
def ackProcess : List Bool → List QueueEvent
  | [] => []
  | handled :: rest =>
    QueueEvent.metricsWrite :: QueueEvent.hubDispatch handled ::
      (if handled then [QueueEvent.ack] else ackProcess rest)

/-- How many times an event occurs in a trace. -/
def countEvent (e : QueueEvent) (trace : List QueueEvent) : Nat :=
  (trace.filter (fun x => x == e)).length

/-- C4: the consumer acknowledges only after the dispatcher signals success —
an `ack` appears in the trace exactly when some hub answer was `true`, and
every `ack` is preceded both by a metrics write and by a successful hub
dispatch; a message whose dispatch never succeeds is never acknowledged. -/
theorem ack_only_after_success (hubResults : List Bool) :
    (QueueEvent.ack ∈ ackProcess hubResults ↔ true ∈ hubResults) ∧
    (∀ n : Nat, (ackProcess hubResults)[n]? = some QueueEvent.ack →
      ∃ i j : Nat, i < n ∧ j < n ∧
        (ackProcess hubResults)[i]? = some QueueEvent.metricsWrite ∧
        (ackProcess hubResults)[j]? = some (QueueEvent.hubDispatch true)) := by
  induction hubResults with
  | nil =>
    constructor
    · simp [ackProcess]
    · intro n hn
      simp [ackProcess] at hn
  | cons b rest ih =>
    cases b
    case true =>
      constructor
      · simp [ackProcess]
      · intro n hn
        rcases n with _ | (_ | (_ | k))
        · simp [ackProcess] at hn
        · simp [ackProcess] at hn
        · exact ⟨0, 1, by omega, by omega, rfl, rfl⟩
        · simp [ackProcess] at hn
    case false =>
      obtain ⟨ih1, ih2⟩ := ih
      constructor
      · show QueueEvent.ack ∈ ackProcess (false :: rest) ↔ true ∈ false :: rest
        unfold ackProcess
        rw [if_neg (by decide)]
        simp [ih1]
      · intro n hn
        unfold ackProcess at hn
        rw [if_neg (by decide)] at hn
        rcases n with _ | (_ | k)
        · simp at hn
        · simp at hn
        · rw [List.getElem?_cons_succ, List.getElem?_cons_succ] at hn
          obtain ⟨i, j, hi, hj, hmi, hmj⟩ := ih2 k hn
          refine ⟨i + 2, j + 2, by omega, by omega, ?_, ?_⟩
          · unfold ackProcess
            rw [if_neg (by decide)]
            rw [List.getElem?_cons_succ, List.getElem?_cons_succ]
            exact hmi
          · unfold ackProcess
            rw [if_neg (by decide)]
            rw [List.getElem?_cons_succ, List.getElem?_cons_succ]
            exact hmj

theorem ack_only_after_success_witness :
    QueueEvent.ack ∈ ackProcess [true] ∧
    ∃ i j : Nat, i < 2 ∧ j < 2 ∧
      (ackProcess [true])[i]? = some QueueEvent.metricsWrite ∧
      (ackProcess [true])[j]? = some (QueueEvent.hubDispatch true) :=
  ⟨(ack_only_after_success [true]).1.mpr (by decide),
   (ack_only_after_success [true]).2 2 (by decide)⟩

/-- C5 counterexample: a message whose hub dispatch fails once and then
succeeds (`[false, true]`) is processed to success but its metrics record is
written twice — once per attempt — so "exactly one metrics write" fails on
the code. -/
theorem retry_repeats_metrics_counterexample :
    true ∈ [false, true] ∧
    countEvent QueueEvent.metricsWrite (ackProcess [false, true]) = 2 ∧
    countEvent QueueEvent.metricsWrite (ackProcess [false, true]) ≠ 1 := by
  refine ⟨by decide, by decide, by decide⟩

/-- C5 amended: every message whose processing eventually returns success
results in at least one metrics write (one per dispatch attempt, so retries
repeat it), exactly one acknowledgement, and at least one successful hub
dispatch. -/
theorem eventual_success_effects (hubResults : List Bool) (h : true ∈ hubResults) :
    1 ≤ countEvent QueueEvent.metricsWrite (ackProcess hubResults) ∧
    countEvent QueueEvent.ack (ackProcess hubResults) = 1 ∧
    QueueEvent.hubDispatch true ∈ ackProcess hubResults := by
  induction hubResults with
  | nil => cases h
  | cons b rest ih =>
    cases b
    case true =>
      refine ⟨?_, ?_, ?_⟩
      · simp [ackProcess, countEvent, List.filter_cons]
      · simp [ackProcess, countEvent, List.filter_cons]
      · simp [ackProcess]
    case false =>
      have hrest : true ∈ rest := by
        rcases List.mem_cons.mp h with h1 | h1
        · cases h1
        · exact h1
      obtain ⟨ih1, ih2, ih3⟩ := ih hrest
      refine ⟨?_, ?_, ?_⟩
      · unfold ackProcess countEvent
        rw [if_neg (by decide)]
        simp [List.filter_cons]
      · unfold ackProcess countEvent
        rw [if_neg (by decide)]
        simpa [List.filter_cons, countEvent] using ih2
      · unfold ackProcess
        rw [if_neg (by decide)]
        exact List.mem_cons_of_mem _ (List.mem_cons_of_mem _ ih3)

theorem eventual_success_effects_witness :
    1 ≤ countEvent QueueEvent.metricsWrite (ackProcess [false, true]) ∧
    countEvent QueueEvent.ack (ackProcess [false, true]) = 1 ∧
    QueueEvent.hubDispatch true ∈ ackProcess [false, true] :=
  eventual_success_effects [false, true] (by decide)

/-- The plan the muxer produces for `[sampleTileAttrA]` against the persisted
row `dummyTile`, whose statuses make the update predicate false. -/
def samplePlanB : IMuxTileLists :=
  { toInsert := []
    toUpdate := []
    toReset := []
    toDelete := [] }

theorem mux_update_membership_witness :
    (mergedUpdateTile dummyTile sampleTileAttrA 0 ∈ samplePlanB.toUpdate ↔
        dummyTile.prev_stage_status ≠ sampleTileAttrA.this_stage_status) ∧
    (dummyTile.prev_stage_status = sampleTileAttrA.this_stage_status →
        (∀ u ∈ samplePlanB.toUpdate, u.relative_path ≠ sampleTileAttrA.relative_path) ∧
        sampleTileAttrA.relative_path ∉ samplePlanB.toDelete ∧
        (∀ t ∈ samplePlanB.toInsert, t.relative_path ≠ sampleTileAttrA.relative_path)) :=
  mux_update_membership [sampleTileAttrA] [dummyTile] 0 samplePlanB (by decide)
    (by decide) (by decide) sampleTileAttrA dummyTile (by decide) (by decide) rfl

theorem mux_update_lookup_total_witness :
    ∃ t, tileForPath [dummyTile] sampleTileAttrA.relative_path = some t :=
  mux_update_lookup_total [sampleTileAttrA] [dummyTile] sampleTileAttrA (by decide)
